import Mathlib

/-!
Verification of the `vsyf/media_common` repository: the `avp::Looper`
scheduler (src/looper.h), the `avp::MediaSource` default capabilities
(src/media_source.h) and the `ave::media::MediaPacket` data model
(src/foundation/media_packet.cc).

`looper.h` only declares the member functions; the bodies of
`post`, `loop`, `stop`, `registerHandler`, `awaitResponse` and
`postReply` are not part of the repository snapshot.  Where a claim is
decided by a declaration that is present (the `EventOrder` comparator,
the `std::priority_queue` instantiation, the `awaitResponse`
signature), those are embedded from the source; the missing bodies are
modelled from the specification and marked as such in their doc
comments.
-/

set_option autoImplicit false

namespace avp

/-- Embedding of `Looper::Event` (src/looper.h lines 55-58):
`{ int64_t when_us_; std::shared_ptr<Message> message_ }`.
The message is abstracted by the sequence number `seq` of the `post`
call that created the event, which also lets us talk about insertion
order. -/
structure Event where
  when_us : Int
  seq : Nat
deriving Repr, DecidableEq

/-- Embedding of `Looper::EventOrder::operator()` (src/looper.h lines
60-65): `first->when_us_ > second->when_us_`.  This is the comparator
handed to `std::priority_queue`; it looks only at `when_us_`. -/
def eventOrder (first second : Event) : Bool :=
  first.when_us > second.when_us

/-- Read a cell of the queue's underlying vector; out-of-range reads
(never reached in the verified paths) give a dummy event. -/
def getE (a : List Event) (i : Nat) : Event :=
  a.getD i ⟨0, 0⟩

/-- Write a cell of the queue's underlying vector. -/
def setE (a : List Event) (i : Nat) (v : Event) : List Event :=
  a.set i v

/-- Embedding of libstdc++ `std::__push_heap` (bits/stl_heap.h), the
sift-up loop that `std::priority_queue::push` and `__adjust_heap` end
with, instantiated with the source's `EventOrder` comparator and top
index 0: while the hole is below the top and the parent compares less
than the value (`comp(parent, value)`), move the parent down; finally
store the value in the hole. -/
def pushHeapLoop (a : List Event) (hole : Nat) (value : Event) : List Event :=
  if h : 0 < hole ∧ eventOrder (getE a ((hole - 1) / 2)) value then
    pushHeapLoop (setE a hole (getE a ((hole - 1) / 2))) ((hole - 1) / 2) value
  else
    setE a hole value
termination_by hole
decreasing_by
  exact Nat.lt_of_le_of_lt (Nat.div_le_self _ 2) (Nat.sub_lt h.1 Nat.one_pos)

/-- Embedding of `std::priority_queue::push` (src/looper.h line 75-78
instantiation): `c.push_back(x); std::push_heap(c.begin(), c.end(),
comp)`, which is `__push_heap(first, (last-first)-1, 0, value)`. -/
def heapPush (a : List Event) (v : Event) : List Event :=
  pushHeapLoop (a ++ [v]) a.length v

/-- The descending phase of libstdc++ `std::__adjust_heap`: while
`secondChild < (len-1)/2`, step to the child pair below, pick the child
that wins the comparison (for `EventOrder`, the one with the smaller
`when_us_`), move it into the hole and descend.  Returns the vector,
the hole index and the final `secondChild`. -/
def adjustDown (a : List Event) (hole sc len : Nat) :
    List Event × Nat × Nat :=
  if h : sc < (len - 1) / 2 then
    let sc2 := 2 * (sc + 1)
    let sc3 := if eventOrder (getE a sc2) (getE a (sc2 - 1)) then sc2 - 1 else sc2
    adjustDown (setE a hole (getE a sc3)) sc3 sc3 len
  else
    (a, hole, sc)
termination_by (len - 1) / 2 - sc
decreasing_by
  refine Nat.sub_lt_sub_left h ?_
  show sc < if eventOrder (getE a (2 * (sc + 1))) (getE a (2 * (sc + 1) - 1))
      then 2 * (sc + 1) - 1 else 2 * (sc + 1)
  split <;> omega

/-- Embedding of libstdc++ `std::__adjust_heap` (bits/stl_heap.h):
descend choosing the winning child; if the length is even and the hole
stopped at the unique node with a single (last) child, move that child
up and put the hole at the last position; then sift the saved value up
with `__push_heap`. -/
def adjustHeap (a : List Event) (hole len : Nat) (value : Event) :
    List Event :=
  let r := adjustDown a hole hole len
  let a1 := r.1
  let h1 := r.2.1
  let sc1 := r.2.2
  if len % 2 == 0 && sc1 == (len - 2) / 2 then
    let sc2 := 2 * (sc1 + 1)
    pushHeapLoop (setE a1 h1 (getE a1 (sc2 - 1))) (sc2 - 1) value
  else
    pushHeapLoop a1 h1 value

/-- Embedding of `std::priority_queue::pop`:
`std::pop_heap(c.begin(), c.end(), comp); c.pop_back()`.  `pop_heap`
saves the last element as `value`, writes the root into the last cell
(immediately discarded by `pop_back`) and runs
`__adjust_heap(first, 0, len-1, value)`.  For a queue of size ≤ 1 the
result is the empty vector. -/
def heapPop (a : List Event) : List Event :=
  match a with
  | [] => []
  | [_] => []
  | _ =>
    let value := getE a (a.length - 1)
    adjustHeap (a.take (a.length - 1)) 0 (a.length - 1) value

/-- `std::priority_queue::top`: the front of the underlying vector. -/
def heapTop (a : List Event) : Event :=
  getE a 0

/-- Modelled from the spec: `Looper::post` (body not in src; header
src/looper.h line 43 declares it) computes
`when_us = now_us() + delay_us`, with negative delays clamped to "now"
(spec §4.1). -/
def postWhen (now delay : Int) : Int :=
  now + max delay 0

/-- The state of the spec-modelled dispatch machine: the current clock,
the event queue (the `std::priority_queue` vector from src/looper.h
lines 75-78), the sequence number of the next `post`, and the list of
events dispatched so far, in dispatch order. -/
structure LooperState where
  now : Int
  heap : List Event
  nextSeq : Nat
  dispatched : List Event
deriving Repr, DecidableEq

def initLooper : LooperState :=
  { now := 0, heap := [], nextSeq := 0, dispatched := [] }

/-- One interaction with the looper: a `post` with the given delay, the
clock advancing by `d ≥ 0` microseconds, or one iteration of the
dispatch loop. -/
inductive Cmd
  | post (delay : Int)
  | tick (d : Nat)
  | dispatch
deriving Repr, DecidableEq

/-- Modelled from the spec: one step of the machine.  `post` inserts an
event with `when_us = postWhen now delay` into the source's priority
queue (spec §4.1); `tick` advances the clock; `dispatch` is one turn of
the loop body (spec §4.1 steps 2-4): if the queue is nonempty and the
earliest event is due (`when_us ≤ now`) it is popped and dispatched,
otherwise the loop keeps waiting. -/
def step (s : LooperState) (c : Cmd) : LooperState :=
  match c with
  | .post delay =>
      { s with
        heap := heapPush s.heap ⟨postWhen s.now delay, s.nextSeq⟩,
        nextSeq := s.nextSeq + 1 }
  | .tick d => { s with now := s.now + d }
  | .dispatch =>
      if 0 < s.heap.length ∧ (heapTop s.heap).when_us ≤ s.now then
        { s with
          heap := heapPop s.heap,
          dispatched := s.dispatched ++ [heapTop s.heap] }
      else s

/-- Run a command sequence from the idle looper. -/
def run (cmds : List Cmd) : LooperState :=
  cmds.foldl step initLooper

/-! ### Vector-cell lemmas for `getE`/`setE` -/

theorem length_setE (a : List Event) (i : Nat) (v : Event) :
    (setE a i v).length = a.length :=
  List.length_set a i v

theorem getE_setE_self (a : List Event) (i : Nat) (v : Event)
    (h : i < a.length) : getE (setE a i v) i = v := by
  simp [getE, setE, List.getD_eq_getElem?_getD, List.getElem?_set, h]

theorem getE_setE_ne (a : List Event) (i j : Nat) (v : Event)
    (h : i ≠ j) : getE (setE a i v) j = getE a j := by
  simp [getE, setE, List.getD_eq_getElem?_getD, List.getElem?_set_ne h]

theorem mem_setE (a : List Event) (i : Nat) (v x : Event)
    (h : x ∈ setE a i v) : x ∈ a ∨ x = v :=
  List.mem_or_eq_of_mem_set h

theorem getE_mem (a : List Event) (i : Nat) (h : i < a.length) :
    getE a i ∈ a := by
  rw [getE, List.getD_eq_getElem?_getD, List.getElem?_eq_getElem h]
  exact List.getElem_mem _

theorem getE_append_left (a : List Event) (v : Event) (i : Nat)
    (h : i < a.length) : getE (a ++ [v]) i = getE a i := by
  simp [getE, List.getD_eq_getElem?_getD, List.getElem?_append, h]

theorem getE_take (a : List Event) (n i : Nat) (h : i < n) :
    getE (a.take n) i = getE a i := by
  simp [getE, List.getD_eq_getElem?_getD, List.getElem?_take, h]

theorem getE_setE (a : List Event) (i j : Nat) (v : Event)
    (hi : i < a.length) : getE (setE a i v) j = if j = i then v else getE a j := by
  split
  · next h => subst h; exact getE_setE_self a j v hi
  · next h => exact getE_setE_ne a i j v (fun he => h he.symm)

theorem eventOrder_iff (x y : Event) :
    eventOrder x y = true ↔ y.when_us < x.when_us := by
  simp [eventOrder]

/-! ### The binary-heap invariant

`std::priority_queue` instantiated with `EventOrder` keeps the
underlying vector heap-ordered: with this comparator the top is the
event with the smallest `when_us_`, so the invariant is a min-heap on
`when_us_` (cell `i`'s parent is cell `(i-1)/2`). -/

def IsMinHeap (a : List Event) : Prop :=
  ∀ i, 0 < i → i < a.length →
    (getE a ((i - 1) / 2)).when_us ≤ (getE a i).when_us

theorem isMinHeap_nil : IsMinHeap [] := by
  intro i _ h2
  simp at h2

theorem isMinHeap_root_le (a : List Event) (h : IsMinHeap a) :
    ∀ i, i < a.length → (getE a 0).when_us ≤ (getE a i).when_us := by
  intro i
  induction i using Nat.strong_induction_on with
  | _ i ih =>
    intro hi
    rcases Nat.eq_zero_or_pos i with rfl | hpos
    · exact le_refl _
    · have hp : (i - 1) / 2 < i := by omega
      exact le_trans (ih _ hp (lt_trans hp hi)) (h i hpos hi)

theorem heapTop_le_mem (a : List Event) (h : IsMinHeap a) :
    ∀ x ∈ a, (heapTop a).when_us ≤ x.when_us := by
  intro x hx
  obtain ⟨i, hi, rfl⟩ := List.getElem_of_mem hx
  have hg : getE a i = a[i] := by
    simp [getE, List.getD_eq_getElem?_getD, List.getElem?_eq_getElem hi]
  rw [heapTop, ← hg]
  exact isMinHeap_root_le a h i hi

/-- Loop invariant of the `__push_heap` sift-up: the vector is
heap-ordered everywhere except that the cell at `hole` counts as
empty, and every child of the hole dominates both the pending `value`
and (when the hole is not the root) the hole's parent. -/
def UpInv (a : List Event) (hole : Nat) (v : Event) : Prop :=
  (∀ i, 0 < i → i < a.length → i ≠ hole → (i - 1) / 2 ≠ hole →
      (getE a ((i - 1) / 2)).when_us ≤ (getE a i).when_us) ∧
  (∀ i, 0 < i → i < a.length → (i - 1) / 2 = hole →
      v.when_us ≤ (getE a i).when_us ∧
      (0 < hole → (getE a ((hole - 1) / 2)).when_us ≤ (getE a i).when_us))

theorem upInv_step (a : List Event) (hole : Nat) (v : Event)
    (hlen : hole < a.length) (hinv : UpInv a hole v) (h0 : 0 < hole)
    (hcmp : v.when_us < (getE a ((hole - 1) / 2)).when_us) :
    UpInv (setE a hole (getE a ((hole - 1) / 2))) ((hole - 1) / 2) v := by
  obtain ⟨h1, h2⟩ := hinv
  have hplt : (hole - 1) / 2 < hole := by omega
  constructor
  · intro i hi0 hilen hip hipar
    rw [length_setE] at hilen
    rw [getE_setE _ _ _ _ hlen, getE_setE _ _ _ _ hlen]
    have hih : i ≠ hole := by
      intro he
      exact hipar (by rw [he])
    rw [if_neg hih]
    by_cases hipar2 : (i - 1) / 2 = hole
    · rw [if_pos hipar2]
      exact (h2 i hi0 hilen hipar2).2 h0
    · rw [if_neg hipar2]
      exact h1 i hi0 hilen hih hipar2
  · intro i hi0 hilen hipar
    rw [length_setE] at hilen
    rw [getE_setE _ _ _ _ hlen, getE_setE _ _ _ _ hlen]
    have hpar_ne : ((hole - 1) / 2 - 1) / 2 ≠ hole := by omega
    rw [if_neg hpar_ne]
    by_cases hih : i = hole
    · subst hih
      rw [if_pos rfl]
      refine ⟨le_of_lt hcmp, ?_⟩
      intro hp0
      exact h1 _ hp0 (lt_trans hplt hlen) (by omega) (by omega)
    · rw [if_neg hih]
      have hchild : (getE a ((i - 1) / 2)).when_us ≤ (getE a i).when_us :=
        h1 i hi0 hilen hih (by omega)
      rw [hipar] at hchild
      refine ⟨le_trans (le_of_lt hcmp) hchild, ?_⟩
      intro hp0
      have hpp : (getE a (((hole - 1) / 2 - 1) / 2)).when_us ≤
          (getE a ((hole - 1) / 2)).when_us :=
        h1 _ hp0 (lt_trans hplt hlen) (by omega) (by omega)
      exact le_trans hpp hchild

theorem upInv_final (a : List Event) (hole : Nat) (v : Event)
    (hlen : hole < a.length) (hinv : UpInv a hole v)
    (hstop : ¬(0 < hole ∧ eventOrder (getE a ((hole - 1) / 2)) v = true)) :
    IsMinHeap (setE a hole v) := by
  obtain ⟨h1, h2⟩ := hinv
  intro i hi0 hilen
  rw [length_setE] at hilen
  rw [getE_setE _ _ _ _ hlen, getE_setE _ _ _ _ hlen]
  by_cases hih : i = hole
  · subst hih
    rw [if_pos rfl, if_neg (by omega : (i - 1) / 2 ≠ i)]
    rcases Decidable.not_and_iff_or_not.mp hstop with hc | hc
    · omega
    · rw [eventOrder_iff] at hc
      exact le_of_not_lt hc
  · rw [if_neg hih]
    by_cases hipar : (i - 1) / 2 = hole
    · rw [if_pos hipar]
      exact (h2 i hi0 hilen hipar).1
    · rw [if_neg hipar]
      exact h1 i hi0 hilen hih hipar

theorem pushHeapLoop_isMinHeap :
    ∀ (hole : Nat) (a : List Event) (v : Event),
      hole < a.length → UpInv a hole v → IsMinHeap (pushHeapLoop a hole v) := by
  intro hole
  induction hole using Nat.strong_induction_on with
  | _ hole ih =>
    intro a v hlen hinv
    rw [pushHeapLoop]
    split
    · next h =>
      have hplt : (hole - 1) / 2 < hole := by omega
      refine ih _ hplt _ v ?_ ?_
      · rw [length_setE]; exact lt_trans hplt hlen
      · exact upInv_step a hole v hlen hinv h.1 ((eventOrder_iff _ _).mp h.2)
    · next h =>
      exact upInv_final a hole v hlen hinv h

theorem mem_pushHeapLoop :
    ∀ (hole : Nat) (a : List Event) (v x : Event), hole < a.length →
      x ∈ pushHeapLoop a hole v → x ∈ a ∨ x = v := by
  intro hole
  induction hole using Nat.strong_induction_on with
  | _ hole ih =>
    intro a v x hlen hx
    rw [pushHeapLoop] at hx
    split at hx
    · next h =>
      have hplt : (hole - 1) / 2 < hole := by omega
      rcases ih _ hplt _ v x (by rw [length_setE]; exact lt_trans hplt hlen) hx with hx' | hx'
      · rcases mem_setE _ _ _ _ hx' with hx'' | hx''
        · exact Or.inl hx''
        · exact Or.inl (hx'' ▸ getE_mem a _ (lt_trans hplt hlen))
      · exact Or.inr hx'
    · rcases mem_setE _ _ _ _ hx with hx' | hx'
      · exact Or.inl hx'
      · exact Or.inr hx'

theorem heapPush_isMinHeap (a : List Event) (v : Event) (h : IsMinHeap a) :
    IsMinHeap (heapPush a v) := by
  refine pushHeapLoop_isMinHeap a.length (a ++ [v]) v (by simp) ⟨?_, ?_⟩
  · intro i hi0 hilen hih hipar
    simp only [List.length_append, List.length_singleton] at hilen
    have hi' : i < a.length := by omega
    have hp' : (i - 1) / 2 < a.length := by omega
    rw [getE_append_left a v i hi', getE_append_left a v _ hp']
    exact h i hi0 hi'
  · intro i hi0 hilen hipar
    simp only [List.length_append, List.length_singleton] at hilen
    omega

theorem mem_heapPush (a : List Event) (v x : Event)
    (h : x ∈ heapPush a v) : x ∈ a ∨ x = v := by
  rcases mem_pushHeapLoop a.length (a ++ [v]) v x (by simp) h with h' | h'
  · rcases List.mem_append.mp h' with h'' | h''
    · exact Or.inl h''
    · exact Or.inr (List.mem_singleton.mp h'')
  · exact Or.inr h'

/-- Loop invariant of the descending phase of `__adjust_heap`: the
vector is heap-ordered except that the cell at `hole` counts as empty,
and every child of the hole dominates the hole's parent. -/
def DownInv (a : List Event) (hole : Nat) : Prop :=
  (∀ i, 0 < i → i < a.length → i ≠ hole → (i - 1) / 2 ≠ hole →
      (getE a ((i - 1) / 2)).when_us ≤ (getE a i).when_us) ∧
  (∀ i, i < a.length → (i - 1) / 2 = hole → 0 < hole →
      (getE a ((hole - 1) / 2)).when_us ≤ (getE a i).when_us)

theorem downInv_step (a : List Event) (hole len sc3 : Nat)
    (hlen : a.length = len) (hg : hole < (len - 1) / 2)
    (hinv : DownInv a hole)
    (hsc : sc3 = 2 * hole + 1 ∨ sc3 = 2 * hole + 2)
    (hmin1 : (getE a sc3).when_us ≤ (getE a (2 * hole + 1)).when_us)
    (hmin2 : (getE a sc3).when_us ≤ (getE a (2 * hole + 2)).when_us) :
    DownInv (setE a hole (getE a sc3)) sc3 := by
  obtain ⟨h1, h2⟩ := hinv
  have hsc3len : sc3 < len := by omega
  have hole_lt : hole < a.length := by omega
  constructor
  · intro i hi0 hilen hisc hipar
    rw [length_setE, hlen] at hilen
    rw [getE_setE _ _ _ _ hole_lt, getE_setE _ _ _ _ hole_lt]
    by_cases hih : i = hole
    · subst hih
      rw [if_pos rfl, if_neg (by omega : (i - 1) / 2 ≠ i)]
      exact h2 sc3 (by omega) (by omega) hi0
    · rw [if_neg hih]
      by_cases hipar2 : (i - 1) / 2 = hole
      · rw [if_pos hipar2]
        have : i = 2 * hole + 1 ∨ i = 2 * hole + 2 := by omega
        rcases this with rfl | rfl
        · exact hmin1
        · exact hmin2
      · rw [if_neg hipar2]
        exact h1 i hi0 (by omega) hih hipar2
  · intro i hilen hipar _
    rw [length_setE, hlen] at hilen
    rw [getE_setE _ _ _ _ hole_lt, getE_setE _ _ _ _ hole_lt]
    have hparsc : (sc3 - 1) / 2 = hole := by omega
    rw [hparsc, if_pos rfl, if_neg (by omega : i ≠ hole), ← hipar]
    exact h1 i (by omega) (by omega) (by omega) (by omega)

theorem adjustDown_master :
    ∀ (k : Nat) (a : List Event) (hole len : Nat),
      (len - 1) / 2 - hole ≤ k →
      a.length = len → hole < len → DownInv a hole →
      ((adjustDown a hole hole len).1.length = len ∧
       (adjustDown a hole hole len).2.2 = (adjustDown a hole hole len).2.1 ∧
       (adjustDown a hole hole len).2.1 < len ∧
       ¬ ((adjustDown a hole hole len).2.1 < (len - 1) / 2) ∧
       DownInv (adjustDown a hole hole len).1 (adjustDown a hole hole len).2.1 ∧
       (∀ x ∈ (adjustDown a hole hole len).1, x ∈ a)) := by
  intro k
  induction k with
  | zero =>
    intro a hole len hk hlen hhole hinv
    have hstop : ¬ (hole < (len - 1) / 2) := by omega
    rw [adjustDown, dif_neg hstop]
    exact ⟨hlen, rfl, hhole, hstop, hinv, fun x hx => hx⟩
  | succ k ih =>
    intro a hole len hk hlen hhole hinv
    by_cases hg : hole < (len - 1) / 2
    · rw [adjustDown, dif_pos hg]
      set sc2 := 2 * (hole + 1) with hsc2
      set sc3 := if eventOrder (getE a sc2) (getE a (sc2 - 1)) then sc2 - 1 else sc2
        with hsc3
      have hscor : sc3 = 2 * hole + 1 ∨ sc3 = 2 * hole + 2 := by
        rw [hsc3]; split <;> omega
      have hmm : (getE a sc3).when_us ≤ (getE a (2 * hole + 1)).when_us ∧
          (getE a sc3).when_us ≤ (getE a (2 * hole + 2)).when_us := by
        have e1 : sc2 - 1 = 2 * hole + 1 := by omega
        have e2 : sc2 = 2 * hole + 2 := by omega
        rw [hsc3]
        split
        · next hcmp =>
          rw [eventOrder_iff] at hcmp
          rw [e1] at hcmp ⊢
          rw [e2] at hcmp
          exact ⟨le_refl _, le_of_lt hcmp⟩
        · next hcmp =>
          rw [eventOrder_iff] at hcmp
          push_neg at hcmp
          rw [e1] at hcmp
          rw [e2] at hcmp ⊢
          exact ⟨hcmp, le_refl _⟩
      have hstep := downInv_step a hole len sc3 hlen hg hinv hscor hmm.1 hmm.2
      have hrec := ih (setE a hole (getE a sc3)) sc3 len (by omega)
        (by rw [length_setE]; exact hlen) (by omega) hstep
      refine ⟨hrec.1, hrec.2.1, hrec.2.2.1, hrec.2.2.2.1, hrec.2.2.2.2.1, ?_⟩
      intro x hx
      rcases mem_setE _ _ _ _ (hrec.2.2.2.2.2 x hx) with hx'' | hx''
      · exact hx''
      · exact hx'' ▸ getE_mem a sc3 (by omega)
    · rw [adjustDown, dif_neg hg]
      exact ⟨hlen, rfl, hhole, hg, hinv, fun x hx => hx⟩

theorem adjustHeap_isMinHeap_mem (a : List Event) (len : Nat) (value : Event)
    (hlen : a.length = len) (h0 : 0 < len) (hinv : DownInv a 0) :
    IsMinHeap (adjustHeap a 0 len value) ∧
      (∀ x ∈ adjustHeap a 0 len value, x ∈ a ∨ x = value) := by
  obtain ⟨hL, hsceq, hlt, hexit, hDinv, hmem⟩ :=
    adjustDown_master ((len - 1) / 2) a 0 len (by omega) hlen h0 hinv
  rw [adjustHeap]
  set r := adjustDown a 0 0 len with hr
  simp only
  rw [hsceq]
  split
  · next hguard =>
    have hg' : len % 2 = 0 ∧ r.2.1 = (len - 2) / 2 := by
      have := hguard
      simp only [Bool.and_eq_true, beq_iff_eq] at this
      exact this
    have hone : 2 * (r.2.1 + 1) - 1 = len - 1 := by omega
    have hlast : len - 1 < r.1.length := by omega
    have hh1len : r.2.1 < r.1.length := by omega
    constructor
    · refine pushHeapLoop_isMinHeap _ _ value (by rw [length_setE]; omega) ⟨?_, ?_⟩
      · intro i hi0 hilen hih hipar
        rw [length_setE, hL] at hilen
        rw [hone] at *
        rw [getE_setE _ _ _ _ hh1len, getE_setE _ _ _ _ hh1len]
        by_cases hihole : i = r.2.1
        · subst hihole
          rw [if_pos rfl, if_neg (by omega : (r.2.1 - 1) / 2 ≠ r.2.1)]
          exact hDinv.2 (len - 1) (by omega) (by omega) hi0
        · rw [if_neg hihole]
          have hiparne : (i - 1) / 2 ≠ r.2.1 := by omega
          rw [if_neg hiparne]
          exact hDinv.1 i hi0 (by omega) hihole hiparne
      · intro i hi0 hilen hipar
        rw [length_setE, hL] at hilen
        rw [hone] at hipar
        omega
    · intro x hx
      rcases mem_pushHeapLoop _ _ value x (by rw [length_setE]; omega) hx with hx' | hx'
      · rcases mem_setE _ _ _ _ hx' with hx'' | hx''
        · exact Or.inl (hmem x hx'')
        · exact Or.inl (hmem _ (hx'' ▸ getE_mem r.1 _ (by omega)))
      · exact Or.inr hx'
  · next hguard =>
    have hg' : ¬(len % 2 = 0 ∧ r.2.1 = (len - 2) / 2) := by
      intro hcon
      apply hguard
      simp only [Bool.and_eq_true, beq_iff_eq]
      exact hcon
    constructor
    · refine pushHeapLoop_isMinHeap _ _ value (by omega) ⟨hDinv.1, ?_⟩
      intro i hi0 hilen hipar
      rw [hL] at hilen
      rcases Decidable.not_and_iff_or_not.mp hg' with hc | hc <;> omega
    · intro x hx
      rcases mem_pushHeapLoop _ _ value x (by omega) hx with hx' | hx'
      · exact Or.inl (hmem x hx')
      · exact Or.inr hx'

theorem length_take_pred (a : List Event) :
    (a.take (a.length - 1)).length = a.length - 1 := by
  rw [List.length_take]; omega

theorem downInv_take (a : List Event) (h : IsMinHeap a) :
    DownInv (a.take (a.length - 1)) 0 := by
  constructor
  · intro i hi0 hilen hih hipar
    rw [length_take_pred] at hilen
    rw [getE_take _ _ _ (by omega), getE_take _ _ _ (by omega)]
    exact h i hi0 (by omega)
  · intro i hilen hipar hfalse
    omega

theorem heapPop_isMinHeap (a : List Event) (h : IsMinHeap a) :
    IsMinHeap (heapPop a) := by
  match a with
  | [] => exact isMinHeap_nil
  | [e] => exact isMinHeap_nil
  | e1 :: e2 :: rest =>
    show IsMinHeap (adjustHeap _ 0 _ _)
    exact (adjustHeap_isMinHeap_mem _ _ _ (length_take_pred _) (by simp)
      (downInv_take _ h)).1

theorem mem_heapPop (a : List Event) (x : Event) (h : IsMinHeap a)
    (hx : x ∈ heapPop a) : x ∈ a := by
  match a with
  | [] => exact absurd hx (by simp [heapPop])
  | [e] => exact absurd hx (by simp [heapPop])
  | e1 :: e2 :: rest =>
    have hx' : x ∈ adjustHeap ((e1 :: e2 :: rest).take ((e1 :: e2 :: rest).length - 1))
        0 ((e1 :: e2 :: rest).length - 1)
        (getE (e1 :: e2 :: rest) ((e1 :: e2 :: rest).length - 1)) := hx
    rcases (adjustHeap_isMinHeap_mem _ _ _ (length_take_pred _) (by simp)
        (downInv_take _ h)).2 x hx' with h1 | h1
    · exact List.take_subset _ _ h1
    · exact h1 ▸ getE_mem _ _ (by simp)

/-! ### The dispatch-order invariant of the modelled loop -/

/-- Machine invariant: the queue vector is heap-ordered, the dispatched
sequence is non-decreasing in `when_us`, every pending event is no
earlier than every dispatched event, and no dispatched event is later
than the clock. -/
def LooperInv (s : LooperState) : Prop :=
  IsMinHeap s.heap ∧
  s.dispatched.Pairwise (fun x y => x.when_us ≤ y.when_us) ∧
  (∀ d ∈ s.dispatched, ∀ e ∈ s.heap, d.when_us ≤ e.when_us) ∧
  (∀ d ∈ s.dispatched, d.when_us ≤ s.now)

theorem looperInv_init : LooperInv initLooper := by
  refine ⟨isMinHeap_nil, ?_, ?_, ?_⟩ <;> simp [initLooper]

theorem looperInv_step (s : LooperState) (c : Cmd) (h : LooperInv s) :
    LooperInv (step s c) := by
  obtain ⟨hheap, hsorted, hcross, hnow⟩ := h
  cases c with
  | post delay =>
    refine ⟨heapPush_isMinHeap _ _ hheap, hsorted, ?_, hnow⟩
    intro d hd e he
    rcases mem_heapPush _ _ _ he with he' | he'
    · exact hcross d hd e he'
    · have hpw : s.now ≤ postWhen s.now delay :=
        le_add_of_nonneg_right (le_max_right delay 0)
      rw [he']
      exact le_trans (hnow d hd) hpw
  | tick n =>
    refine ⟨hheap, hsorted, hcross, ?_⟩
    intro x hx
    have hn : (0 : Int) ≤ (n : Int) := Int.ofNat_nonneg n
    have := hnow x hx
    show x.when_us ≤ s.now + (n : Int)
    omega
  | dispatch =>
    by_cases hc : 0 < s.heap.length ∧ (heapTop s.heap).when_us ≤ s.now
    · show LooperInv (if _ then _ else _)
      rw [if_pos hc]
      have htop_mem : heapTop s.heap ∈ s.heap := getE_mem _ 0 hc.1
      refine ⟨heapPop_isMinHeap _ hheap, ?_, ?_, ?_⟩
      · rw [List.pairwise_append]
        refine ⟨hsorted, List.pairwise_singleton _ _, ?_⟩
        intro d hd t ht
        rw [List.mem_singleton] at ht
        rw [ht]
        exact hcross d hd _ htop_mem
      · intro d hd e he
        have he' := mem_heapPop _ _ hheap he
        rcases List.mem_append.mp hd with hd' | hd'
        · exact hcross d hd' e he'
        · rw [List.mem_singleton] at hd'
          rw [hd']
          exact heapTop_le_mem _ hheap e he'
      · intro d hd
        rcases List.mem_append.mp hd with hd' | hd'
        · exact hnow d hd'
        · rw [List.mem_singleton] at hd'
          rw [hd']
          exact hc.2
    · show LooperInv (if _ then _ else _)
      rw [if_neg hc]
      exact ⟨hheap, hsorted, hcross, hnow⟩

theorem looperInv_run (cmds : List Cmd) : LooperInv (run cmds) := by
  rw [run]
  have hfold : ∀ (s : LooperState), LooperInv s → LooperInv (cmds.foldl step s) := by
    induction cmds with
    | nil => intro s hs; exact hs
    | cons c rest ih =>
      intro s hs
      exact ih _ (looperInv_step s c hs)
  exact hfold _ looperInv_init

/-- C1, counterexample.  The claim also promises a stable FIFO
tie-break among events with equal `when_us`, but the source's queue is
a `std::priority_queue` whose `EventOrder` comparator looks only at
`when_us_` (src/looper.h lines 60-65), and a binary heap is not
stable.  Posting four messages with delay 0 at the same clock value
and dispatching all four delivers the events in sequence order
`[0, 2, 1, 3]`, not post order `[0, 1, 2, 3]`: the dispatched
sequence violates the claimed post-order tie-break at positions 1 and
2, refuting the claim at this input. -/
theorem c1_fifo_tiebreak_counterexample :
    ((run [.post 0, .post 0, .post 0, .post 0,
           .dispatch, .dispatch, .dispatch, .dispatch]).dispatched.map Event.when_us
        = [0, 0, 0, 0]) ∧
    ((run [.post 0, .post 0, .post 0, .post 0,
           .dispatch, .dispatch, .dispatch, .dispatch]).dispatched.map Event.seq
        = [0, 2, 1, 3]) ∧
    ¬ ((run [.post 0, .post 0, .post 0, .post 0,
             .dispatch, .dispatch, .dispatch, .dispatch]).dispatched.Pairwise
        (fun x y => x.when_us < y.when_us ∨
          (x.when_us = y.when_us ∧ x.seq < y.seq))) := by
  have hrun : (run [.post 0, .post 0, .post 0, .post 0,
      .dispatch, .dispatch, .dispatch, .dispatch]).dispatched =
      [⟨0,0⟩, ⟨0,2⟩, ⟨0,1⟩, ⟨0,3⟩] := by
    simp +decide [run, initLooper, step, heapPush, heapPop, heapTop, adjustHeap,
      adjustDown, pushHeapLoop, getE, setE, postWhen, eventOrder]
  rw [hrun]
  refine ⟨rfl, rfl, ?_⟩
  intro hpw
  rcases List.pairwise_cons.mp hpw with ⟨_, hpw1⟩
  rcases List.pairwise_cons.mp hpw1 with ⟨hhead, _⟩
  have := hhead ⟨0, 1⟩ (by simp)
  rcases this with hlt | ⟨_, hseq⟩
  · exact absurd hlt (by decide)
  · exact absurd hseq (by decide)

/-- C1 (amended): for every interleaving of `post` calls, clock
advances and loop turns, the dispatched events come out in
non-decreasing `when_us` order (the tie-break among equal `when_us`
follows the heap's internal order rather than post order; see the
counterexample). -/
theorem c1_dispatch_order_nondecreasing (cmds : List Cmd) :
    (run cmds).dispatched.Pairwise (fun x y => x.when_us ≤ y.when_us) :=
  (looperInv_run cmds).2.1

/-! ### Status codes, reply tokens and shutdown -/

/-- Modelled from the spec: the status codes of `base/errors.h` /
`common/media_errors.h`, which are not part of the repository
snapshot.  The constructors are the codes the spec's error taxonomy
(§7) and the comments of src/media_source.h name. -/
inductive status_t
  | OK
  | TERMINATED
  | TIMED_OUT
  | INVALID_OPERATION
  | ERROR_UNSUPPORTED
  | BAD_VALUE
  | NO_INIT
  | ERROR_END_OF_STREAM
  | INFO_FORMAT_CHANGED
deriving DecidableEq, Repr

/-- The `Message` class is only forward-declared in src/looper.h
(line 25); its contents are irrelevant to the claims and are
abstracted by a numeric payload. -/
structure Message where
  payload : Nat
deriving DecidableEq, Repr

/-- Modelled from the spec: `ReplyToken` is forward-declared in
src/looper.h (line 27) with no body in the snapshot; spec §3 gives its
state: `{ unique id, delivered flag, response: optional Message }`. -/
structure ReplyToken where
  id : Nat
  delivered : Bool
  response : Option Message
deriving DecidableEq, Repr

/-- Modelled from the spec: `Looper::postReply` (declared at
src/looper.h lines 90-91, body not in the snapshot): stores the reply
into the token, marks it delivered and broadcasts the reply condition;
replying to an already-delivered token is a programming error
surfaced as a failure status (spec §4.3). -/
def postReply (token : ReplyToken) (reply : Message) :
    status_t × ReplyToken :=
  if token.delivered then (.INVALID_OPERATION, token)
  else (.OK, { token with delivered := true, response := some reply })

/-- The possible outcomes of one wake-up inside `awaitResponse`. -/
inductive AwaitResult
  | success (response : Option Message)
  | terminated
  | timedOut
  | blocked
deriving DecidableEq, Repr

/-- Modelled from the spec: the check `Looper::awaitResponse`
(declared at src/looper.h lines 87-88, body not in the snapshot)
performs on every wake of the reply condition (spec §4.3): if the
token has been delivered, return its response; otherwise, if the
looper has stopped, fail with the terminated error; otherwise keep
blocking. -/
def awaitCheck (stopped : Bool) (token : ReplyToken) : AwaitResult :=
  if token.delivered then .success token.response
  else if stopped then .terminated
  else .blocked

/-- Modelled from the spec: the lifecycle flags of a Looper relevant
to shutdown — the stop flag and whether the worker thread has exited
and been joined (spec §4.4; `looping_`/`stopped_` are declared at
src/looper.h lines 70-72). -/
structure LooperLifecycle where
  stopped : Bool
  joined : Bool
deriving DecidableEq, Repr

/-- Modelled from the spec: `Looper::stop` (declared at src/looper.h
line 42, body not in the snapshot): sets the stop flag, broadcasts
both condition variables (modelled by every waiter re-running
`awaitCheck` against the new state), joins the worker thread before
returning, and is idempotent — a second call is a no-op that still
returns OK (spec §4.4). -/
def stop (l : LooperLifecycle) : status_t × LooperLifecycle :=
  if l.stopped then (.OK, l)
  else (.OK, { stopped := true, joined := true })

/-- C2: stopping a running looper unblocks every thread waiting in
`awaitResponse` on a never-replied token with the terminated failure
(neither success nor continued blocking), returns only after the
worker thread has been joined, and a second `stop` is a no-op that
still succeeds. -/
theorem c2_stop_unblocks_all_waiters (l : LooperLifecycle)
    (waiters : List ReplyToken)
    (hrun : l.stopped = false)
    (hw : ∀ t ∈ waiters, t.delivered = false) :
    (stop l).1 = .OK ∧
    (stop l).2.joined = true ∧
    (∀ t ∈ waiters, awaitCheck (stop l).2.stopped t = .terminated) ∧
    stop (stop l).2 = (.OK, (stop l).2) := by
  have hs : stop l = (.OK, ⟨true, true⟩) := by simp [stop, hrun]
  rw [hs]
  refine ⟨rfl, rfl, ?_, by simp [stop]⟩
  intro t ht
  simp [awaitCheck, hw t ht]

/-- C2, witness: two blocked waiters on a running looper. -/
theorem c2_stop_unblocks_all_waiters_witness :
    (stop ⟨false, false⟩).1 = .OK ∧
    (stop ⟨false, false⟩).2.joined = true ∧
    (∀ t ∈ [(⟨0, false, none⟩ : ReplyToken), ⟨1, false, none⟩],
      awaitCheck (stop ⟨false, false⟩).2.stopped t = .terminated) ∧
    stop (stop ⟨false, false⟩).2 = (.OK, (stop ⟨false, false⟩).2) :=
  c2_stop_unblocks_all_waiters ⟨false, false⟩
    [⟨0, false, none⟩, ⟨1, false, none⟩] rfl (by decide)

/-- C3: the first `postReply` on a fresh token succeeds and marks it
delivered; a second `postReply` on the resulting (already-delivered)
token returns an error instead of silently succeeding, and leaves the
token unchanged. -/
theorem c3_double_postReply_is_error (token : ReplyToken)
    (r1 r2 : Message) (hfresh : token.delivered = false) :
    (postReply token r1).1 = .OK ∧
    (postReply token r1).2.delivered = true ∧
    (postReply (postReply token r1).2 r2).1 = .INVALID_OPERATION ∧
    (postReply (postReply token r1).2 r2).1 ≠ .OK ∧
    (postReply (postReply token r1).2 r2).2 = (postReply token r1).2 := by
  simp [postReply, hfresh]

/-- C3, witness: a fresh token replied to twice. -/
theorem c3_double_postReply_is_error_witness :
    (postReply ⟨0, false, none⟩ ⟨1⟩).1 = .OK ∧
    (postReply ⟨0, false, none⟩ ⟨1⟩).2.delivered = true ∧
    (postReply (postReply ⟨0, false, none⟩ ⟨1⟩).2 ⟨2⟩).1 = .INVALID_OPERATION ∧
    (postReply (postReply ⟨0, false, none⟩ ⟨1⟩).2 ⟨2⟩).1 ≠ .OK ∧
    (postReply (postReply ⟨0, false, none⟩ ⟨1⟩).2 ⟨2⟩).2 =
      (postReply ⟨0, false, none⟩ ⟨1⟩).2 :=
  c3_double_postReply_is_error ⟨0, false, none⟩ ⟨1⟩ ⟨2⟩ rfl

/-- Embedding of the parameter list of `Looper::awaitResponse` as
declared at src/looper.h lines 87-88:
`status_t awaitResponse(const std::shared_ptr<ReplyToken>& replyToken,
std::shared_ptr<Message>& response)` — a reply-token parameter and a
response out-parameter. -/
inductive AwaitParamKind
  | replyToken
  | response
  | deadline
deriving DecidableEq, Repr

def awaitResponseParams : List AwaitParamKind :=
  [.replyToken, .response]

/-- C4, counterexample: the `awaitResponse` declared in the source has
no deadline parameter at all, so the claimed optional deadline (and
with it the distinct timeout failure and the removal of the waiting
registration on expiry) does not exist in this code. -/
theorem c4_no_deadline_counterexample :
    AwaitParamKind.deadline ∉ awaitResponseParams := by
  decide

/-- C4 (amended): `awaitResponse` accepts no deadline; it blocks until
the token is delivered or the looper stops, and in particular never
produces a timeout outcome — the only failure is the terminated-loop
failure. -/
theorem c4_await_has_no_timeout :
    AwaitParamKind.deadline ∉ awaitResponseParams ∧
    (∀ (stopped : Bool) (t : ReplyToken),
      awaitCheck stopped t ≠ .timedOut) := by
  refine ⟨by decide, ?_⟩
  intro stopped t
  rw [awaitCheck]
  split_ifs <;> simp

/-- C5: `post` schedules at `when_us = now_us() + delay_us`, except
that a negative delay is clamped so the event is scheduled at the
current time ("as soon as possible"), never at a time in the past. -/
theorem c5_post_when_clamps_negative (now delay : Int) :
    postWhen now delay = (if delay < 0 then now else now + delay) ∧
    now ≤ postWhen now delay := by
  unfold postWhen
  constructor
  · rcases lt_or_le delay 0 with h | h
    · rw [if_pos h, max_eq_right (le_of_lt h), add_zero]
    · rw [if_neg (not_lt.mpr h), max_eq_left h]
  · exact le_add_of_nonneg_right (le_max_right delay 0)

/-! ### The handler registry -/

/-- Modelled from the spec: the handler registry of a Looper —
`map<handler_id, weak ref to Handler>` plus the next-handler-id
counter (spec §3).  Handlers are abstracted by numeric keys; `none`
models a null `shared_ptr<Handler>`.  The counter starts above 0 so
that 0 is the invalid id. -/
structure HandlerRegistry where
  nextHandlerId : Nat
  handlers : List (Nat × Nat)
deriving DecidableEq, Repr

def initRegistry : HandlerRegistry :=
  { nextHandlerId := 1, handlers := [] }

/-- Modelled from the spec: `Looper::registerHandler` (declared at
src/looper.h line 38, body not in the snapshot): rejects a null
handler by returning the invalid id 0; otherwise allocates the next
id, stores the association and returns the id (spec §4.2 and §3). -/
def registerHandler (reg : HandlerRegistry) (handler : Option Nat) :
    Nat × HandlerRegistry :=
  match handler with
  | none => (0, reg)
  | some h =>
      (reg.nextHandlerId,
       { nextHandlerId := reg.nextHandlerId + 1,
         handlers := reg.handlers ++ [(reg.nextHandlerId, h)] })

/-- Register a list of handlers in order; returns the ids in call
order together with the final registry. -/
def registerAll (reg : HandlerRegistry) :
    List (Option Nat) → List Nat × HandlerRegistry
  | [] => ([], reg)
  | h :: rest =>
      let r := registerHandler reg h
      let rr := registerAll r.2 rest
      (r.1 :: rr.1, rr.2)

theorem registerAll_ids :
    ∀ (hs : List (Option Nat)) (reg : HandlerRegistry),
      0 < reg.nextHandlerId →
      (∀ i ∈ (registerAll reg hs).1, i = 0 ∨ reg.nextHandlerId ≤ i) ∧
      ((registerAll reg hs).1.filter (fun i => i != 0)).Pairwise (· < ·) ∧
      (∀ p ∈ hs.zip (registerAll reg hs).1, p.1 = none ↔ p.2 = 0) := by
  intro hs
  induction hs with
  | nil =>
    intro reg _
    refine ⟨?_, ?_, ?_⟩ <;> simp [registerAll]
  | cons hd rest ih =>
    intro reg hpos
    match hd with
    | none =>
      simp only [registerAll, registerHandler]
      obtain ⟨ih1, ih2, ih3⟩ := ih reg hpos
      refine ⟨?_, ?_, ?_⟩
      · intro i hi
        rcases List.mem_cons.mp hi with rfl | hi'
        · exact Or.inl rfl
        · exact ih1 i hi'
      · simpa using ih2
      · intro p hp
        rcases List.mem_cons.mp (by simpa using hp) with rfl | hp'
        · simp
        · exact ih3 p hp'
    | some h =>
      simp only [registerAll, registerHandler]
      obtain ⟨ih1, ih2, ih3⟩ :=
        ih ⟨reg.nextHandlerId + 1, reg.handlers ++ [(reg.nextHandlerId, h)]⟩
          (Nat.succ_pos _)
      dsimp only at ih1 ih2 ih3
      refine ⟨?_, ?_, ?_⟩
      · intro i hi
        rcases List.mem_cons.mp hi with rfl | hi'
        · exact Or.inr (le_refl _)
        · rcases ih1 i hi' with h0 | hle
          · exact Or.inl h0
          · exact Or.inr (by omega)
      · rw [List.filter_cons_of_pos (by simp; omega)]
        rw [List.pairwise_cons]
        refine ⟨?_, ih2⟩
        intro b hb
        obtain ⟨hbmem, hbne⟩ := List.mem_filter.mp hb
        rcases ih1 b hbmem with h0 | hle
        · simp [h0] at hbne
        · omega
      · intro p hp
        rcases List.mem_cons.mp (by simpa using hp) with rfl | hp'
        · constructor
          · intro hcon
            exact absurd hcon (by simp)
          · intro hcon
            exact absurd hcon (by omega)
        · exact ih3 p hp'

/-- C6: registering a null handler returns the invalid id 0 and leaves
the registry unchanged; the ids returned across any sequence of
registrations are 0 exactly for the null registrations, and the
nonzero ids are strictly increasing in call order (hence unique within
the looper). -/
theorem c6_register_handler_ids (reg : HandlerRegistry)
    (hs : List (Option Nat)) :
    registerHandler reg none = (0, reg) ∧
    ((registerAll initRegistry hs).1.filter (fun i => i != 0)).Pairwise (· < ·) ∧
    (∀ p ∈ hs.zip (registerAll initRegistry hs).1, p.1 = none ↔ p.2 = 0) := by
  obtain ⟨_, h2, h3⟩ := registerAll_ids hs initRegistry (by decide)
  exact ⟨rfl, h2, h3⟩

/-! ### MediaSource default capabilities -/

/-- Embedding of the optional `MediaSource` capabilities with their
default implementations from src/media_source.h lines 97, 104-106 and
122-124.  A concrete source is a record of implementations; a source
that does not override a member keeps the field's default value, which
is the default body from the header: `return ERROR_UNSUPPORTED;`.
Buffers are abstracted by numeric keys. -/
structure MediaSourceOps where
  pause : status_t := .ERROR_UNSUPPORTED
  setBuffers : List Nat → status_t := fun _ => .ERROR_UNSUPPORTED
  setStopTimeUs : Int → status_t := fun _ => .ERROR_UNSUPPORTED

/-- C8: a MediaSource that overrides none of the optional capabilities
answers `pause()`, `setBuffers(buffers)` for any buffer list and
`setStopTimeUs(t)` for any `t` with `ERROR_UNSUPPORTED` — an ordinary
error status the caller handles, not a fatal failure. -/
theorem c8_default_optional_ops_unsupported (bufs : List Nat) (t : Int) :
    ({} : MediaSourceOps).pause = .ERROR_UNSUPPORTED ∧
    ({} : MediaSourceOps).setBuffers bufs = .ERROR_UNSUPPORTED ∧
    ({} : MediaSourceOps).setStopTimeUs t = .ERROR_UNSUPPORTED :=
  ⟨rfl, rfl, rfl⟩

end avp

namespace ave
namespace media

/-- Embedding of `MediaType` (media_types.h is not in the snapshot;
the values media_packet.cc uses are `UNKNOWN`, `AUDIO` and `VIDEO`,
written lowercase here). -/
inductive MediaType
  | unknown
  | audio
  | video
deriving DecidableEq, Repr

/-- `AudioSampleInfo` (declared in media_packet.h, which is not in the
snapshot): its fields are irrelevant to the claims and are abstracted
by one numeric payload; a default-constructed value has payload 0. -/
structure AudioSampleInfo where
  payload : Nat := 0
deriving DecidableEq, Repr

/-- `VideoSampleInfo`, abstracted the same way as `AudioSampleInfo`. -/
structure VideoSampleInfo where
  payload : Nat := 0
deriving DecidableEq, Repr

/-- `sample_info_` is a variant: `sample_info_(0)` in the constructors
(media_packet.cc lines 29 and 38) selects its first alternative with
value 0, modelled by `alt0 0`; `SetMediaType` stores a
default-constructed `AudioSampleInfo` or `VideoSampleInfo` into it
(lines 63-68). -/
inductive SampleInfo
  | alt0 (v : Nat)
  | audio (info : AudioSampleInfo)
  | video (info : VideoSampleInfo)
deriving DecidableEq, Repr

/-- The `PacketBufferType` tag: an owned in-memory buffer or an opaque
native handle. -/
inductive PacketBufferType
  | kTypeNormal
  | kTypeNativeHandle
deriving DecidableEq, Repr

/-- `Buffer` (foundation/buffer.h is not in the snapshot): an owned
heap allocation of the given size.  `std::make_shared<Buffer>(size)`
always yields a non-null pointer, modelled as `some ⟨size⟩`. -/
structure Buffer where
  size : Nat
deriving DecidableEq, Repr

/-- Embedding of `MediaPacket` (field list from the constructors of
media_packet.cc lines 22-38).  `data_` is a `shared_ptr<Buffer>`
(`none` = null); `native_handle_` is a `void*` (`none` = nullptr). -/
structure MediaPacket where
  size_ : Nat
  data_ : Option Buffer
  native_handle_ : Option Nat
  buffer_type_ : PacketBufferType
  media_type_ : MediaType
  is_eos_ : Bool
  sample_info_ : SampleInfo
deriving DecidableEq, Repr

/-- Embedding of `MediaPacket::Create`, which calls the size
constructor (media_packet.cc lines 14-16 and 22-29). -/
def MediaPacket.Create (size : Nat) : MediaPacket :=
  { size_ := size
    data_ := some ⟨size⟩
    native_handle_ := none
    buffer_type_ := .kTypeNormal
    media_type_ := .unknown
    is_eos_ := false
    sample_info_ := .alt0 0 }

/-- Embedding of `MediaPacket::CreateWithHandle`, which calls the
handle constructor (media_packet.cc lines 18-20 and 31-38). -/
def MediaPacket.CreateWithHandle (handle : Option Nat) : MediaPacket :=
  { size_ := 0
    data_ := none
    native_handle_ := handle
    buffer_type_ := .kTypeNativeHandle
    media_type_ := .unknown
    is_eos_ := false
    sample_info_ := .alt0 0 }

/-- Embedding of the copy constructor (media_packet.cc lines 42-57). -/
def MediaPacket.copy (other : MediaPacket) : MediaPacket :=
  if other.buffer_type_ = .kTypeNormal then
    { data_ := other.data_
      native_handle_ := none
      buffer_type_ := .kTypeNormal
      size_ := other.size_
      media_type_ := other.media_type_
      is_eos_ := other.is_eos_
      sample_info_ := other.sample_info_ }
  else
    { data_ := none
      native_handle_ := other.native_handle_
      buffer_type_ := .kTypeNativeHandle
      size_ := other.size_
      media_type_ := other.media_type_
      is_eos_ := other.is_eos_
      sample_info_ := other.sample_info_ }

/-- Embedding of `MediaPacket::SetMediaType` (media_packet.cc lines
59-73): a change of type updates `media_type_` and, for audio and
video, resets `sample_info_` to a default-constructed value; the
default switch case leaves `sample_info_` alone. -/
def MediaPacket.SetMediaType (p : MediaPacket) (type : MediaType) :
    MediaPacket :=
  if p.media_type_ ≠ type then
    match type with
    | .audio => { p with media_type_ := type, sample_info_ := .audio {} }
    | .video => { p with media_type_ := type, sample_info_ := .video {} }
    | _ => { p with media_type_ := type }
  else p

/-- Embedding of `MediaPacket::data` (media_packet.cc lines 96-101):
the buffer's data pointer for a normal packet, `nullptr` for a
native-handle packet.  The non-null storage pointer returned by
`Buffer::data()` is modelled by the buffer value itself. -/
def MediaPacket.data (p : MediaPacket) : Option Buffer :=
  if p.buffer_type_ = .kTypeNormal then p.data_ else none

/-- C7: the copy constructor preserves the buffer-type tag, `size_`,
`media_type_`, `is_eos_` and `sample_info_`; a native-handle source
has its handle pointer copied while `data_` stays null, and a normal
source has its buffer shared while `native_handle_` stays null
(mutual exclusion). -/
theorem c7_copy_constructor_fields (p : MediaPacket) :
    p.copy.buffer_type_ = p.buffer_type_ ∧
    ((p.copy.data_, p.copy.native_handle_) =
      if p.buffer_type_ = .kTypeNormal then (p.data_, none)
      else (none, p.native_handle_)) ∧
    p.copy.size_ = p.size_ ∧
    p.copy.media_type_ = p.media_type_ ∧
    p.copy.is_eos_ = p.is_eos_ ∧
    p.copy.sample_info_ = p.sample_info_ := by
  cases hb : p.buffer_type_ <;> simp [MediaPacket.copy, hb]

/-- The packets reachable through the creation paths the claim names:
`Create`, `CreateWithHandle` and copy construction. -/
inductive Reachable : MediaPacket → Prop
  | create (size : Nat) : Reachable (MediaPacket.Create size)
  | createWithHandle (handle : Option Nat) :
      Reachable (MediaPacket.CreateWithHandle handle)
  | copy {p : MediaPacket} : Reachable p → Reachable p.copy

/-- C9: every packet reachable through `Create`, `CreateWithHandle` or
copy construction satisfies the tagged-union invariant — a normal
packet has a non-null buffer and a null native handle, a native-handle
packet has a null buffer — and therefore `data()` returns a non-null
pointer exactly for normal packets. -/
theorem c9_tagged_union_invariant (p : MediaPacket) (h : Reachable p) :
    (p.buffer_type_ = .kTypeNormal →
      p.data_.isSome ∧ p.native_handle_ = none) ∧
    (p.buffer_type_ = .kTypeNativeHandle → p.data_ = none) ∧
    (p.data.isSome ↔ p.buffer_type_ = .kTypeNormal) := by
  induction h with
  | create size =>
    simp [MediaPacket.Create, MediaPacket.data]
  | createWithHandle handle =>
    simp [MediaPacket.CreateWithHandle, MediaPacket.data]
  | copy hq ih =>
    rename_i q
    cases hb : q.buffer_type_ with
    | kTypeNormal =>
      obtain ⟨hsome, hnull⟩ := ih.1 hb
      simp [MediaPacket.copy, MediaPacket.data, hb, hsome]
    | kTypeNativeHandle =>
      simp [MediaPacket.copy, MediaPacket.data, hb]

/-- C9, witness: a packet freshly created with `Create 4`. -/
theorem c9_tagged_union_invariant_witness :
    ((MediaPacket.Create 4).buffer_type_ = .kTypeNormal →
      (MediaPacket.Create 4).data_.isSome ∧
      (MediaPacket.Create 4).native_handle_ = none) ∧
    ((MediaPacket.Create 4).buffer_type_ = .kTypeNativeHandle →
      (MediaPacket.Create 4).data_ = none) ∧
    ((MediaPacket.Create 4).data.isSome ↔
      (MediaPacket.Create 4).buffer_type_ = .kTypeNormal) :=
  c9_tagged_union_invariant _ (Reachable.create 4)

theorem setMediaType_sets_type (p : MediaPacket) (t : MediaType) :
    (p.SetMediaType t).media_type_ = t := by
  by_cases h : p.media_type_ = t
  · rw [MediaPacket.SetMediaType.eq_def, if_neg (by simp [h]), h]
  · rw [MediaPacket.SetMediaType.eq_def, if_pos (by simpa using h)]
    cases t <;> simp

theorem setMediaType_noop (p : MediaPacket) (t : MediaType)
    (h : p.media_type_ = t) : p.SetMediaType t = p := by
  rw [MediaPacket.SetMediaType.eq_def, if_neg (by simp [h])]

/-- C10: `SetMediaType` with the packet's current type is a no-op (in
particular the existing `sample_info_` is preserved); changing the
type to audio or video replaces `sample_info_` with a
default-constructed `AudioSampleInfo` or `VideoSampleInfo`; and the
operation is idempotent — applying it twice with the same type equals
applying it once. -/
theorem c10_set_media_type_idempotent (p : MediaPacket) (t : MediaType) :
    (p.media_type_ = t → p.SetMediaType t = p) ∧
    (p.media_type_ ≠ .audio →
      (p.SetMediaType .audio).sample_info_ = .audio {}) ∧
    (p.media_type_ ≠ .video →
      (p.SetMediaType .video).sample_info_ = .video {}) ∧
    (p.SetMediaType t).SetMediaType t = p.SetMediaType t := by
  refine ⟨setMediaType_noop p t, ?_, ?_, ?_⟩
  · intro hne
    rw [MediaPacket.SetMediaType, if_pos (by simpa using hne)]
  · intro hne
    rw [MediaPacket.SetMediaType, if_pos (by simpa using hne)]
  · exact setMediaType_noop _ t (setMediaType_sets_type p t)

end media
end ave

